import Mathlib

/-!
Shallow embedding of the `nuke` region-based memory allocator
(`arena.go`, `monotonic_arena.go`, `slab_arena.go`, `slice.go`).

Machine integers (`uintptr`, `int`) are modelled as `ℕ`.  The unsigned
wrap-around of Go is not modelled: in every execution of the source that returns
normally the values involved stay far below 2^64 (buffer sizes come from
non-negative `int` arguments, and an overflowing request makes the Go code
panic inside `unsafe.Slice` before returning), so on those executions the
`ℕ` arithmetic and the Go arithmetic coincide.

Heap addresses chosen by the Go runtime for the lazily created backing
arrays (`make([]byte, size)`) are nondeterministic inputs; the model records
the would-be address of each buffer in an extra `heapBase` field, fixed per
buffer.  The contents of the backing array of a buffer are modelled by a function
`mem : ℕ → ℕ` over buffer-relative byte indices.
-/

/-- The smallest `pad ≥ 0` with `(p + pad) % a = 0`.  This is the closed form
of the Go loop in `monotonicBuffer.alloc`:
`for alignedPtr := base+offset; alignedPtr%alignment != 0; alignedPtr++ { alignOffset++ }`.
`alignPad_correct` and `alignPad_min` below prove that for `0 < a` this
closed form is exactly what the loop computes. -/
def alignPad (p a : ℕ) : ℕ := (a - p % a) % a

theorem alignPad_lt (p a : ℕ) (ha : 0 < a) : alignPad p a < a :=
  Nat.mod_lt _ ha

theorem alignPad_correct (p a : ℕ) (ha : 0 < a) : (p + alignPad p a) % a = 0 := by
  unfold alignPad
  rcases Nat.eq_zero_or_pos (p % a) with h0 | hpos
  · simp [h0, Nat.mod_self, Nat.add_mod, h0]
  · have hlt : p % a < a := Nat.mod_lt _ ha
    have hme : (a - p % a) % a = a - p % a := Nat.mod_eq_of_lt (by omega)
    rw [hme]
    have hdm : a * (p / a) + p % a = p := Nat.div_add_mod p a
    have hsum : p + (a - p % a) = a * (p / a + 1) := by
      rw [Nat.mul_add, Nat.mul_one]
      omega
    rw [hsum, Nat.mul_mod_right]

theorem alignPad_min (p a k : ℕ) (ha : 0 < a) (hk : (p + k) % a = 0) :
    alignPad p a ≤ k := by
  unfold alignPad
  rcases Nat.eq_zero_or_pos (p % a) with h0 | hpos
  · simp [h0, Nat.mod_self]
  · have hlt : p % a < a := Nat.mod_lt _ ha
    have hme : (a - p % a) % a = a - p % a := Nat.mod_eq_of_lt (by omega)
    rw [hme]
    by_contra hcon
    push_neg at hcon
    have hdm : a * (p / a) + p % a = p := Nat.div_add_mod p a
    have hsplit : p + k = a * (p / a) + (p % a + k) := by omega
    have hmod : (p + k) % a = (p % a + k) % a := by
      rw [hsplit, Nat.mul_add_mod]
    have hsmall : p % a + k < a := by omega
    rw [hmod, Nat.mod_eq_of_lt hsmall] at hk
    omega

/-- Model of `monotonicBuffer` (monotonic_arena.go).  Source fields: `ptr`
(nil until first use), `offset`, `size` (all `uintptr`-valued).  `heapBase`
and `mem` are model artifacts: the runtime-chosen address of the backing
array and the contents of the backing array (see the file header). -/
structure monotonicBuffer where
  heapBase : ℕ
  ptr : Option ℕ
  offset : ℕ
  size : ℕ
  mem : ℕ → ℕ

/-- `newMonotonicBuffer` (monotonic_arena.go): zero offset, nil pointer. -/
def newMonotonicBuffer (size heapBase : ℕ) : monotonicBuffer :=
  { heapBase := heapBase, ptr := none, offset := 0, size := size, mem := fun _ => 0 }

/-- `monotonicBuffer.availableBytes`: `s.size - s.offset` in `uintptr`
arithmetic; equals the `ℕ` truncated subtraction whenever `offset ≤ size`. -/
def monotonicBuffer.availableBytes (s : monotonicBuffer) : ℕ := s.size - s.offset

/-- The base address in effect during an `alloc` call: the materialized
pointer if present, else the address the lazy `make([]byte, s.size)` would
get. -/
def monotonicBuffer.effBase (s : monotonicBuffer) : ℕ := s.ptr.getD s.heapBase

/-- The padding `alignOffset` that `monotonicBuffer.alloc` computes for the
current state. -/
def monotonicBuffer.pad (alignment : ℕ) (s : monotonicBuffer) : ℕ :=
  alignPad (s.effBase + s.offset) alignment

/-- `monotonicBuffer.alloc` (monotonic_arena.go): lazily materialize the
backing array (zero-filled by `make`), compute the alignment padding with
the Go loop (here its closed form `alignPad`), fail without advancing if
`availableBytes < size + alignOffset`, otherwise bump `offset` by
`size + alignOffset`, zero-fill the returned `size` bytes and return
`base + offset_before + alignOffset`. -/
def monotonicBuffer.alloc (s : monotonicBuffer) (size alignment : ℕ) :
    Option ℕ × monotonicBuffer :=
  let s1 := if s.ptr = none
    then { s with ptr := some s.heapBase, mem := fun _ => 0 }
    else s
  let base := s1.ptr.getD 0
  let alignOffset := alignPad (base + s1.offset) alignment
  let allocSize := size + alignOffset
  if s1.availableBytes < allocSize then (none, s1)
  else
    (some (base + s1.offset + alignOffset),
      { s1 with
        offset := s1.offset + allocSize,
        mem := fun i =>
          if s1.offset + alignOffset ≤ i ∧ i < s1.offset + alignOffset + size
          then 0 else s1.mem i })

/-- `monotonicBuffer.reset` (monotonic_arena.go): no-op when `offset = 0`;
otherwise zero the offset and, when `release`, drop the pointer. -/
def monotonicBuffer.reset (s : monotonicBuffer) (release : Bool) : monotonicBuffer :=
  if s.offset = 0 then s
  else
    let s1 := { s with offset := 0 }
    if release then { s1 with ptr := none } else s1

/-- The state of a buffer after the lazy-materialization step of `alloc`. -/
def monotonicBuffer.matz (s : monotonicBuffer) : monotonicBuffer :=
  if s.ptr = none then { s with ptr := some s.heapBase, mem := fun _ => 0 } else s

theorem matz_ptr (s : monotonicBuffer) : s.matz.ptr = some s.effBase := by
  unfold monotonicBuffer.matz monotonicBuffer.effBase
  cases h : s.ptr <;> simp [h]

theorem matz_offset (s : monotonicBuffer) : s.matz.offset = s.offset := by
  unfold monotonicBuffer.matz
  split <;> rfl

theorem matz_size (s : monotonicBuffer) : s.matz.size = s.size := by
  unfold monotonicBuffer.matz
  split <;> rfl

theorem matz_heapBase (s : monotonicBuffer) : s.matz.heapBase = s.heapBase := by
  unfold monotonicBuffer.matz
  split <;> rfl

theorem alloc_eq_matz (s : monotonicBuffer) (size alignment : ℕ) :
    s.alloc size alignment =
      (if s.availableBytes < size + s.pad alignment
       then (none, s.matz)
       else (some (s.effBase + s.offset + s.pad alignment),
         { s.matz with
           offset := s.offset + (size + s.pad alignment),
           mem := fun i =>
             if s.offset + s.pad alignment ≤ i ∧
                i < s.offset + s.pad alignment + size
             then 0 else s.matz.mem i })) := by
  unfold monotonicBuffer.alloc monotonicBuffer.matz monotonicBuffer.pad
    monotonicBuffer.effBase monotonicBuffer.availableBytes
  cases h : s.ptr <;> simp [h]

theorem alloc_fst_none_iff (s : monotonicBuffer) (size alignment : ℕ) :
    (s.alloc size alignment).1 = none ↔
      s.availableBytes < size + s.pad alignment := by
  rw [alloc_eq_matz]
  split <;> simp_all

theorem alloc_fst_some_iff (s : monotonicBuffer) (size alignment p : ℕ) :
    (s.alloc size alignment).1 = some p ↔
      (¬ s.availableBytes < size + s.pad alignment ∧
        p = s.effBase + s.offset + s.pad alignment) := by
  rw [alloc_eq_matz]
  split <;> simp_all [eq_comm]

theorem alloc_snd_offset_of_none (s : monotonicBuffer) (size alignment : ℕ)
    (h : (s.alloc size alignment).1 = none) :
    (s.alloc size alignment).2.offset = s.offset := by
  rw [alloc_fst_none_iff] at h
  rw [alloc_eq_matz]
  simp [h, matz_offset]

theorem alloc_snd_offset_of_some (s : monotonicBuffer) (size alignment p : ℕ)
    (h : (s.alloc size alignment).1 = some p) :
    (s.alloc size alignment).2.offset = s.offset + (s.pad alignment + size) := by
  rw [alloc_fst_some_iff] at h
  rw [alloc_eq_matz]
  simp only [if_neg h.1]
  omega

theorem alloc_snd_size (s : monotonicBuffer) (size alignment : ℕ) :
    (s.alloc size alignment).2.size = s.size := by
  rw [alloc_eq_matz]
  split <;> simp [matz_size]

theorem alloc_snd_heapBase (s : monotonicBuffer) (size alignment : ℕ) :
    (s.alloc size alignment).2.heapBase = s.heapBase := by
  rw [alloc_eq_matz]
  split <;> simp [matz_heapBase]

theorem alloc_snd_ptr (s : monotonicBuffer) (size alignment : ℕ) :
    (s.alloc size alignment).2.ptr = some s.effBase := by
  rw [alloc_eq_matz]
  split <;> simp [matz_ptr]

theorem alloc_snd_effBase (s : monotonicBuffer) (size alignment : ℕ) :
    (s.alloc size alignment).2.effBase = s.effBase := by
  show ((s.alloc size alignment).2.ptr).getD (s.alloc size alignment).2.heapBase
      = s.effBase
  rw [alloc_snd_ptr]
  rfl

theorem alloc_snd_availableBytes_of_none (s : monotonicBuffer) (size alignment : ℕ)
    (h : (s.alloc size alignment).1 = none) :
    (s.alloc size alignment).2.availableBytes = s.availableBytes := by
  unfold monotonicBuffer.availableBytes
  rw [alloc_snd_size, alloc_snd_offset_of_none s size alignment h]

theorem alloc_snd_pad_of_none (s : monotonicBuffer) (size alignment : ℕ)
    (h : (s.alloc size alignment).1 = none) :
    (s.alloc size alignment).2.pad alignment = s.pad alignment := by
  unfold monotonicBuffer.pad
  rw [alloc_snd_effBase, alloc_snd_offset_of_none s size alignment h]

/-- Model of `monotonicArena` (monotonic_arena.go): an ordered list of
buffers. -/
structure monotonicArena where
  buffers : List monotonicBuffer

/-- The probing loop of `monotonicArena.Alloc`: try each buffer in order,
return the first successful result; failed probes keep their (possibly
lazily materialized) buffer state, buffers past the first success are not
touched. -/
def monoAllocLoop (size alignment : ℕ) : List monotonicBuffer → Option ℕ × List monotonicBuffer
  | [] => (none, [])
  | b :: bs =>
    let r := b.alloc size alignment
    match r.1 with
    | some p => (some p, r.2 :: bs)
    | none =>
      let t := monoAllocLoop size alignment bs
      (t.1, r.2 :: t.2)

/-- `monotonicArena.Alloc` (monotonic_arena.go): probe `a.buffers[i]` for
`i = 0..N-1`, return the first `ok` pointer, else `nil` (here `none`). -/
def monotonicArena.Alloc (a : monotonicArena) (size alignment : ℕ) :
    Option ℕ × monotonicArena :=
  let r := monoAllocLoop size alignment a.buffers
  (r.1, ⟨r.2⟩)

/-- `monotonicArena.Reset` (monotonic_arena.go): forward to `reset` on every
buffer, in order. -/
def monotonicArena.Reset (a : monotonicArena) (release : Bool) : monotonicArena :=
  ⟨a.buffers.map (fun s => s.reset release)⟩

/-- `NewMonotonicArena` (monotonic_arena.go): `bufferCount` fresh buffers of
`bufferSize` bytes each; `heapBases i` is the runtime-chosen model address
for the backing array of buffer `i`. -/
def NewMonotonicArena (bufferSize bufferCount : ℕ) (heapBases : ℕ → ℕ) : monotonicArena :=
  ⟨(List.range bufferCount).map (fun i => newMonotonicBuffer bufferSize (heapBases i))⟩

theorem monoAllocLoop_length (size alignment : ℕ) (bs : List monotonicBuffer) :
    (monoAllocLoop size alignment bs).2.length = bs.length := by
  induction bs with
  | nil => rfl
  | cons b bs ih =>
    unfold monoAllocLoop
    cases h : (b.alloc size alignment).1 <;> simp [h, ih]

theorem monoAllocLoop_none_iff (size alignment : ℕ) (bs : List monotonicBuffer) :
    (monoAllocLoop size alignment bs).1 = none ↔
      ∀ b ∈ bs, (b.alloc size alignment).1 = none := by
  induction bs with
  | nil => simp [monoAllocLoop]
  | cons b bs ih =>
    unfold monoAllocLoop
    cases h : (b.alloc size alignment).1 with
    | some p => simp [h]
    | none => simpa [h] using ih

theorem monoAllocLoop_some (size alignment p : ℕ) (bs : List monotonicBuffer)
    (h : (monoAllocLoop size alignment bs).1 = some p) :
    ∃ i : ℕ, ∃ hi : i < bs.length,
      ((bs.get ⟨i, hi⟩).alloc size alignment).1 = some p ∧
      ∀ j : ℕ, ∀ hj : j < bs.length, j < i →
        ((bs.get ⟨j, hj⟩).alloc size alignment).1 = none := by
  induction bs with
  | nil => simp [monoAllocLoop] at h
  | cons b bs ih =>
    unfold monoAllocLoop at h
    cases hb : (b.alloc size alignment).1 with
    | some q =>
      simp [hb] at h
      refine ⟨0, by simp, ?_, ?_⟩
      · simpa [hb] using h
      · intro j hj hj0
        omega
    | none =>
      simp [hb] at h
      obtain ⟨i, hi, hsucc, hprev⟩ := ih h
      refine ⟨i + 1, by simpa using Nat.succ_lt_succ hi, by simpa using hsucc, ?_⟩
      intro j hj hji
      cases j with
      | zero => simpa using hb
      | succ j =>
        have hj2 : j < bs.length := by simpa using Nat.lt_of_succ_lt_succ hj
        simpa using hprev j hj2 (Nat.lt_of_succ_lt_succ hji)

/-- On success at index `i`, the resulting buffer list agrees with the old
one in every observable except: buffers before `i` are materialized (same
offset), buffer `i` is the post-`alloc` buffer, buffers after `i` are
untouched.  Stated here for the offsets only. -/
theorem monoAllocLoop_offsets (size alignment p : ℕ) (bs : List monotonicBuffer)
    (h : (monoAllocLoop size alignment bs).1 = some p) :
    ∃ i : ℕ, ∃ hi : i < bs.length,
      ((bs.get ⟨i, hi⟩).alloc size alignment).1 = some p ∧
      (monoAllocLoop size alignment bs).2.map monotonicBuffer.offset =
        (bs.map monotonicBuffer.offset).set i
          ((bs.get ⟨i, hi⟩).alloc size alignment).2.offset := by
  induction bs with
  | nil => simp [monoAllocLoop] at h
  | cons b bs ih =>
    unfold monoAllocLoop at h ⊢
    cases hb : (b.alloc size alignment).1 with
    | some q =>
      simp [hb] at h ⊢
      exact ⟨0, by simp, by simpa [hb] using h, by subst h; simp⟩
    | none =>
      simp [hb] at h ⊢
      obtain ⟨i, hi, hsucc, hmap⟩ := ih h
      refine ⟨i + 1, by simpa using Nat.succ_lt_succ hi, by simpa using hsucc, ?_⟩
      simp [hmap, alloc_snd_offset_of_none b size alignment hb]

/-- Model of `slab` (slab_arena.go).  Source fields: `mtx` (elided — the
model is sequential, the lock guards no observable state of its own), `ptr`
(nil until first use), `offset`, `size` (`int`-valued).  `heapBase` and
`mem` are the same model artifacts as on `monotonicBuffer`.  Note the
source `alloc` takes only a size: no alignment parameter exists. -/
structure slab where
  heapBase : ℕ
  ptr : Option ℕ
  offset : ℕ
  size : ℕ
  mem : ℕ → ℕ

/-- `newSlab` (slab_arena.go). -/
def newSlab (size heapBase : ℕ) : slab :=
  { heapBase := heapBase, ptr := none, offset := 0, size := size, mem := fun _ => 0 }

/-- `slab.availableBytes`: `s.size - s.offset` over `int`; equals the `ℕ`
truncated subtraction whenever `offset ≤ size`. -/
def slab.availableBytes (s : slab) : ℕ := s.size - s.offset

def slab.effBase (s : slab) : ℕ := s.ptr.getD s.heapBase

/-- `slab.alloc` (slab_arena.go): lazily materialize, fail if
`availableBytes < size`, else return `base + offset` and bump `offset` by
`size`.  No alignment padding and no zero-fill of the returned bytes. -/
def slab.alloc (s : slab) (size : ℕ) : Option ℕ × slab :=
  let s1 := if s.ptr = none
    then { s with ptr := some s.heapBase, mem := fun _ => 0 }
    else s
  let base := s1.ptr.getD 0
  if s1.availableBytes < size then (none, s1)
  else (some (base + s1.offset), { s1 with offset := s1.offset + size })

/-- `slab.zeroOutBuffer` (slab_arena.go): zero the whole `size`-byte backing
array. -/
def slab.zeroOutBuffer (s : slab) : slab :=
  { s with mem := fun i => if i < s.size then 0 else s.mem i }

/-- `slab.reset` (slab_arena.go): no-op when `offset = 0`; otherwise zero
the offset, then either drop the pointer (`release`) or zero out the whole
buffer. -/
def slab.reset (s : slab) (release : Bool) : slab :=
  if s.offset = 0 then s
  else
    let s1 := { s with offset := 0 }
    if release then { s1 with ptr := none } else s1.zeroOutBuffer

/-- Model of `slabArena` (slab_arena.go). -/
structure slabArena where
  slabs : List slab

/-- The probing loop of `slabArena.Alloc`; same shape as the monotonic
arena loop, but the per-slab `alloc` has no alignment parameter. -/
def slabAllocLoop (size : ℕ) : List slab → Option ℕ × List slab
  | [] => (none, [])
  | b :: bs =>
    let r := b.alloc size
    match r.1 with
    | some p => (some p, r.2 :: bs)
    | none =>
      let t := slabAllocLoop size bs
      (t.1, r.2 :: t.2)

/-- `slabArena.Alloc` (slab_arena.go): probe slabs `0..N-1`, first success
or `nil`.  The source signature is `Alloc(size int)` — it does not accept
an alignment argument, unlike `Arena.Alloc(size, alignment uintptr)` in
arena.go which `NewSlabArena` claims to return. -/
def slabArena.Alloc (a : slabArena) (size : ℕ) : Option ℕ × slabArena :=
  let r := slabAllocLoop size a.slabs
  (r.1, ⟨r.2⟩)

/-- `slabArena.Reset` (slab_arena.go). -/
def slabArena.Reset (a : slabArena) (release : Bool) : slabArena :=
  ⟨a.slabs.map (fun s => s.reset release)⟩

/-- `NewSlabArena` (slab_arena.go). -/
def NewSlabArena (slabSize slabCount : ℕ) (heapBases : ℕ → ℕ) : slabArena :=
  ⟨(List.range slabCount).map (fun i => newSlab slabSize (heapBases i))⟩

def slab.matz (s : slab) : slab :=
  if s.ptr = none then { s with ptr := some s.heapBase, mem := fun _ => 0 } else s

theorem slab_alloc_eq_matz (s : slab) (size : ℕ) :
    s.alloc size =
      (if s.availableBytes < size
       then (none, s.matz)
       else (some (s.effBase + s.offset),
         { s.matz with offset := s.offset + size })) := by
  unfold slab.alloc slab.matz slab.effBase slab.availableBytes
  cases h : s.ptr <;> simp [h]

theorem slab_alloc_fst_none_iff (s : slab) (size : ℕ) :
    (s.alloc size).1 = none ↔ s.availableBytes < size := by
  rw [slab_alloc_eq_matz]
  split <;> simp_all

theorem slab_matz_offset (s : slab) : s.matz.offset = s.offset := by
  unfold slab.matz
  split <;> rfl

theorem slab_matz_size (s : slab) : s.matz.size = s.size := by
  unfold slab.matz
  split <;> rfl

theorem slab_matz_heapBase (s : slab) : s.matz.heapBase = s.heapBase := by
  unfold slab.matz
  split <;> rfl

theorem slab_alloc_snd_offset_of_none (s : slab) (size : ℕ)
    (h : (s.alloc size).1 = none) :
    (s.alloc size).2.offset = s.offset := by
  rw [slab_alloc_fst_none_iff] at h
  rw [slab_alloc_eq_matz]
  simp [h, slab_matz_offset]

theorem slab_alloc_snd_size (s : slab) (size : ℕ) :
    (s.alloc size).2.size = s.size := by
  rw [slab_alloc_eq_matz]
  split <;> simp [slab_matz_size]

theorem slab_alloc_snd_heapBase (s : slab) (size : ℕ) :
    (s.alloc size).2.heapBase = s.heapBase := by
  rw [slab_alloc_eq_matz]
  split <;> simp [slab_matz_heapBase]

/-- `growThreshold` (slice.go). -/
def growThreshold : ℕ := 256

/-- Model of a Go slice at the value level: the visible elements and the
capacity of the backing array. -/
structure GoSlice (α : Type) where
  data : List α
  cap : ℕ

/-- The capacity loop of `growSlice` (slice.go):
`for newLen > newCap { if newCap < growThreshold { newCap *= 2 } else { newCap += newCap / 4 } }`.
The `0 < c` conjunct in the guard is needed for termination in the model;
`growSlice` only enters the loop when the old capacity is positive, and
there the guard coincides with the Go loop condition. -/
def growCap (newLen c : ℕ) : ℕ :=
  if h : 0 < c ∧ c < newLen then
    growCap newLen (if c < growThreshold then c * 2 else c + c / 4)
  else c
termination_by newLen - c
decreasing_by
  simp only [growThreshold]
  split <;> omega

/-- Value-level model of `MakeSlice` (arena.go): `len` default-initialized
elements with capacity `cap`.  Whether the bytes come from the arena
(`Alloc` succeeded) or from the heap fallback `make([T], len, cap)` only
changes where the backing array lives, which the value level elides; the
initial element values are never observed by `SliceAppend` because
`growSlice` overwrites every visible element with `copy`. -/
def MakeSlice (α : Type) [Inhabited α] (len c : ℕ) : GoSlice α :=
  { data := List.replicate len default, cap := c }

/-- The Go builtin `copy(dst, src)`: overwrite the first
`min (len dst) (len src)` elements of `dst` with those of `src`. -/
def goCopy (α : Type) (dst src : List α) : List α :=
  src.take dst.length ++ dst.drop src.length

/-- The Go builtin `append(s, data...)`.  When the result fits in `cap` the
backing array is extended in place; otherwise Go reallocates with a
runtime-chosen larger capacity, modelled as the exact needed length — after
`growSlice` the reallocating branch is never taken (`SliceAppend_fits`), so
the capacity chosen by the model there is inert. -/
def goAppend (α : Type) (s : GoSlice α) (d : List α) : GoSlice α :=
  if s.data.length + d.length ≤ s.cap
  then { data := s.data ++ d, cap := s.cap }
  else { data := s.data ++ d, cap := s.data.length + d.length }

/-- `growSlice` (slice.go), for a non-nil arena: compute the new capacity
(doubling below `growThreshold`, then +25%, starting from the old capacity
when it is positive, else exactly `dataLen`), return the slice unchanged if
the capacity did not change, else make a fresh slice of the same length and
the new capacity and `copy` the old elements forward. -/
def growSlice (α : Type) [Inhabited α] (s : GoSlice α) (dataLen : ℕ) : GoSlice α :=
  let newLen := s.data.length + dataLen
  let newCap := if 0 < s.cap then growCap newLen s.cap else dataLen
  if newCap = s.cap then s
  else
    let s2 := MakeSlice α s.data.length newCap
    { s2 with data := goCopy α s2.data s.data }

/-- `SliceAppend` (slice.go), for a non-nil arena: grow, then append.  (With
a nil arena the source instead returns the plain Go `append(s, data...)`.) -/
def SliceAppend (α : Type) [Inhabited α] (s : GoSlice α) (data : List α) : GoSlice α :=
  goAppend α (growSlice α s data.length) data

theorem growCap_ge (newLen c : ℕ) (hc : 0 < c) : newLen ≤ growCap newLen c := by
  rw [growCap]
  split
  · rename_i h
    have hrec : 0 < (if c < growThreshold then c * 2 else c + c / 4) := by
      split <;> omega
    have := growCap_ge newLen (if c < growThreshold then c * 2 else c + c / 4) hrec
    exact this
  · rename_i h
    omega
termination_by newLen - c
decreasing_by
  simp only [growThreshold] at *
  rename_i h
  split <;> omega

theorem growCap_pos (newLen c : ℕ) (hc : 0 < c) : 0 < growCap newLen c := by
  rw [growCap]
  split
  · rename_i h
    have hrec : 0 < (if c < growThreshold then c * 2 else c + c / 4) := by
      split <;> omega
    exact growCap_pos newLen (if c < growThreshold then c * 2 else c + c / 4) hrec
  · exact hc
termination_by newLen - c
decreasing_by
  simp only [growThreshold] at *
  rename_i h
  split <;> omega

theorem growCap_of_le (newLen c : ℕ) (h : newLen ≤ c) : growCap newLen c = c := by
  rw [growCap]
  split <;> omega

theorem goCopy_replicate (α : Type) [Inhabited α] (l : List α) :
    goCopy α (List.replicate l.length (default : α)) l = l := by
  simp [goCopy]

theorem growSlice_eq (α : Type) [Inhabited α] (s : GoSlice α) (dataLen : ℕ) :
    growSlice α s dataLen =
      (if (if 0 < s.cap then growCap (s.data.length + dataLen) s.cap else dataLen)
          = s.cap
       then s
       else { data := s.data,
              cap := if 0 < s.cap
                then growCap (s.data.length + dataLen) s.cap else dataLen }) := by
  unfold growSlice
  by_cases hpos : 0 < s.cap
  · by_cases heq : growCap (s.data.length + dataLen) s.cap = s.cap
    · simp [hpos, heq]
    · simp [hpos, heq, MakeSlice, goCopy_replicate α s.data]
  · by_cases heq : dataLen = s.cap
    · simp [hpos, heq]
    · simp [hpos, heq, MakeSlice, goCopy_replicate α s.data]

theorem growSlice_data (α : Type) [Inhabited α] (s : GoSlice α) (dataLen : ℕ) :
    (growSlice α s dataLen).data = s.data := by
  rw [growSlice_eq]
  split <;> split <;> rfl

theorem growSlice_fits (α : Type) [Inhabited α] (s : GoSlice α) (dataLen : ℕ)
    (hinv : s.data.length ≤ s.cap) :
    s.data.length + dataLen ≤ (growSlice α s dataLen).cap := by
  rw [growSlice_eq]
  rcases Nat.eq_zero_or_pos s.cap with h0 | hpos
  · have hlen : s.data.length = 0 := by omega
    have hnot : ¬ 0 < s.cap := by omega
    rcases Nat.eq_zero_or_pos dataLen with hd0 | hdpos
    · subst hd0
      simp [hnot, h0, hlen]
    · have hne : ¬ dataLen = s.cap := by omega
      simp [hnot, hne, hlen]
  · have hge := growCap_ge (s.data.length + dataLen) s.cap hpos
    simp only [if_pos hpos]
    split
    · rename_i heq
      omega
    · simpa using hge

theorem growSlice_cap_of_insufficient (α : Type) [Inhabited α] (s : GoSlice α)
    (dataLen : ℕ) (hinv : s.data.length ≤ s.cap)
    (hins : s.cap < s.data.length + dataLen) :
    (growSlice α s dataLen).cap =
      if 0 < s.cap then growCap (s.data.length + dataLen) s.cap else dataLen := by
  rw [growSlice_eq]
  rcases Nat.eq_zero_or_pos s.cap with h0 | hpos
  · simp only [h0, if_neg (by omega : ¬ (0:ℕ) < 0)]
    split
    · omega
    · simp [h0, if_neg (by omega : ¬ (0:ℕ) < 0)]
  · have hge := growCap_ge (s.data.length + dataLen) s.cap hpos
    simp only [if_pos hpos]
    split
    · omega
    · simp [if_pos hpos]

theorem SliceAppend_fits (α : Type) [Inhabited α] (s : GoSlice α) (data : List α)
    (hinv : s.data.length ≤ s.cap) :
    (growSlice α s data.length).data.length + data.length ≤
      (growSlice α s data.length).cap := by
  rw [growSlice_data]
  exact growSlice_fits α s data.length hinv

theorem SliceAppend_data (α : Type) [Inhabited α] (s : GoSlice α) (data : List α)
    (hinv : s.data.length ≤ s.cap) :
    (SliceAppend α s data).data = s.data ++ data := by
  unfold SliceAppend goAppend
  rw [if_pos (SliceAppend_fits α s data hinv)]
  rw [growSlice_data]

theorem SliceAppend_cap (α : Type) [Inhabited α] (s : GoSlice α) (data : List α)
    (hinv : s.data.length ≤ s.cap) :
    (SliceAppend α s data).cap = (growSlice α s data.length).cap := by
  unfold SliceAppend goAppend
  rw [if_pos (SliceAppend_fits α s data hinv)]

/-- Run a list of `(size, alignment)` requests through one monotonic buffer
(no reset in between), collecting the `(address, size)` pair of every
successful `alloc`. -/
def runAllocs : monotonicBuffer → List (ℕ × ℕ) → List (ℕ × ℕ)
  | _, [] => []
  | b, (s, al) :: rest =>
    let r := b.alloc s al
    match r.1 with
    | some p => (p, s) :: runAllocs r.2 rest
    | none => runAllocs r.2 rest

/-- Two `[address, address+size)` ranges have no common byte. -/
def disjointRange (r1 r2 : ℕ × ℕ) : Prop :=
  ∀ x, ¬ (r1.1 ≤ x ∧ x < r1.1 + r1.2 ∧ r2.1 ≤ x ∧ x < r2.1 + r2.2)

theorem runAllocs_lb (reqs : List (ℕ × ℕ)) :
    ∀ b : monotonicBuffer, ∀ x ∈ runAllocs b reqs, b.effBase + b.offset ≤ x.1 := by
  induction reqs with
  | nil => intro b x hx; simp [runAllocs] at hx
  | cons r rest ih =>
    intro b x hx
    obtain ⟨s, al⟩ := r
    unfold runAllocs at hx
    cases hr : (b.alloc s al).1 with
    | some p =>
      simp only [hr] at hx
      rw [List.mem_cons] at hx
      rcases hx with hx | hx
      · subst hx
        have := (alloc_fst_some_iff b s al p).1 hr
        simp only [this.2]
        omega
      · have hb2 := ih (b.alloc s al).2 x hx
        rw [alloc_snd_effBase, alloc_snd_offset_of_some b s al p hr] at hb2
        omega
    | none =>
      simp only [hr] at hx
      have hb2 := ih (b.alloc s al).2 x hx
      rw [alloc_snd_effBase, alloc_snd_offset_of_none b s al hr] at hb2
      exact hb2

theorem runAllocs_pairwise (reqs : List (ℕ × ℕ)) :
    ∀ b : monotonicBuffer, (runAllocs b reqs).Pairwise disjointRange := by
  induction reqs with
  | nil => intro b; simp [runAllocs]
  | cons r rest ih =>
    intro b
    obtain ⟨s, al⟩ := r
    unfold runAllocs
    cases hr : (b.alloc s al).1 with
    | some p =>
      simp only [hr]
      refine List.Pairwise.cons ?_ (ih (b.alloc s al).2)
      intro y hy
      have hlb := runAllocs_lb rest (b.alloc s al).2 y hy
      rw [alloc_snd_effBase, alloc_snd_offset_of_some b s al p hr] at hlb
      have hpv := (alloc_fst_some_iff b s al p).1 hr
      intro x
      simp only [hpv.2] at *
      omega
    | none =>
      simp only [hr]
      exact ih (b.alloc s al).2

theorem reset_offset (b : monotonicBuffer) (release : Bool) :
    (b.reset release).offset = 0 := by
  unfold monotonicBuffer.reset
  split
  · omega
  · split <;> rfl

theorem reset_size (b : monotonicBuffer) (release : Bool) :
    (b.reset release).size = b.size := by
  unfold monotonicBuffer.reset
  split
  · rfl
  · split <;> rfl

theorem reset_mem (b : monotonicBuffer) (release : Bool) :
    (b.reset release).mem = b.mem := by
  unfold monotonicBuffer.reset
  split
  · rfl
  · split <;> rfl

theorem reset_false_ptr (b : monotonicBuffer) :
    (b.reset false).ptr = b.ptr := by
  unfold monotonicBuffer.reset
  split <;> rfl

theorem reset_of_offset_zero (b : monotonicBuffer) (release : Bool)
    (h : b.offset = 0) : b.reset release = b := by
  unfold monotonicBuffer.reset
  rw [if_pos h]

theorem reset_true_ptr_of_pos (b : monotonicBuffer) (h : 0 < b.offset) :
    (b.reset true).ptr = none := by
  unfold monotonicBuffer.reset
  rw [if_neg (by omega)]
  rfl

theorem slab_reset_offset (s : slab) (release : Bool) :
    (s.reset release).offset = 0 := by
  unfold slab.reset
  split
  · omega
  · split
    · rfl
    · simp [slab.zeroOutBuffer]

theorem slab_reset_size (s : slab) (release : Bool) :
    (s.reset release).size = s.size := by
  unfold slab.reset
  split
  · rfl
  · split
    · rfl
    · simp [slab.zeroOutBuffer]

theorem slab_reset_false_mem_zero (s : slab) (h : 0 < s.offset) :
    ∀ j, j < s.size → (s.reset false).mem j = 0 := by
  intro j hj
  unfold slab.reset
  rw [if_neg (by omega)]
  simp [slab.zeroOutBuffer, hj]

theorem slab_alloc_snd_mem_of_materialized (s : slab) (size : ℕ)
    (h : s.ptr ≠ none) : (s.alloc size).2.mem = s.mem := by
  have hm : s.matz = s := by
    unfold slab.matz
    rw [if_neg h]
  rw [slab_alloc_eq_matz]
  split <;> simp [hm]

theorem monoAllocLoop_serving_mem (size alignment p : ℕ) (bs : List monotonicBuffer)
    (h : (monoAllocLoop size alignment bs).1 = some p) :
    ∃ b0 ∈ bs, (b0.alloc size alignment).1 = some p ∧
      (b0.alloc size alignment).2 ∈ (monoAllocLoop size alignment bs).2 := by
  induction bs with
  | nil => simp [monoAllocLoop] at h
  | cons b bs ih =>
    unfold monoAllocLoop at h ⊢
    cases hb : (b.alloc size alignment).1 with
    | some q =>
      simp only [hb] at h ⊢
      exact ⟨b, by simp, by rw [hb, h], by simp⟩
    | none =>
      simp only [hb] at h ⊢
      obtain ⟨b0, hmem, hsucc, hres⟩ := ih h
      exact ⟨b0, by simp [hmem], hsucc, by simp [hres]⟩

/-- Claim C1: for every monotonic region and every request with a
power-of-two alignment, `Alloc` probes the buffers of the region in the fixed
order `0..N-1` and returns the address produced by the first buffer whose
`alloc` succeeds; it returns the null sentinel (`none`) exactly when every
buffer lacks room for the padded request; it never grows the buffer set;
and a returned address is the `alloc` result of a single buffer, never spanning
two buffers. -/
theorem claim_C1 (a : monotonicArena) (size alignment : ℕ)
    (hal : ∃ k, alignment = 2 ^ k) :
    (a.Alloc size alignment).2.buffers.length = a.buffers.length ∧
    ((a.Alloc size alignment).1 = none ↔
      ∀ b ∈ a.buffers, b.availableBytes < size + b.pad alignment) ∧
    (∀ p, (a.Alloc size alignment).1 = some p →
      ∃ i : ℕ, ∃ hi : i < a.buffers.length,
        ((a.buffers.get ⟨i, hi⟩).alloc size alignment).1 = some p ∧
        ∀ j : ℕ, ∀ hj : j < a.buffers.length, j < i →
          (a.buffers.get ⟨j, hj⟩).availableBytes
            < size + (a.buffers.get ⟨j, hj⟩).pad alignment) := by
  refine ⟨?_, ?_, ?_⟩
  · exact monoAllocLoop_length size alignment a.buffers
  · show (monoAllocLoop size alignment a.buffers).1 = none ↔ _
    rw [monoAllocLoop_none_iff]
    constructor
    · intro h b hb
      exact (alloc_fst_none_iff b size alignment).1 (h b hb)
    · intro h b hb
      exact (alloc_fst_none_iff b size alignment).2 (h b hb)
  · intro p hp
    obtain ⟨i, hi, hs, hprev⟩ := monoAllocLoop_some size alignment p a.buffers hp
    exact ⟨i, hi, hs, fun j hj hji =>
      (alloc_fst_none_iff _ size alignment).1 (hprev j hj hji)⟩

/-- Witness for C1 at a concrete two-buffer region and request `(4, 4)`. -/
theorem claim_C1_witness :
    ((monotonicArena.mk
        [monotonicBuffer.mk 0 none 0 16 (fun _ => 0),
         monotonicBuffer.mk 32 none 0 16 (fun _ => 0)]).Alloc 4 4).2.buffers.length
      = (monotonicArena.mk
        [monotonicBuffer.mk 0 none 0 16 (fun _ => 0),
         monotonicBuffer.mk 32 none 0 16 (fun _ => 0)]).buffers.length :=
  (claim_C1 (monotonicArena.mk
    [monotonicBuffer.mk 0 none 0 16 (fun _ => 0),
     monotonicBuffer.mk 32 none 0 16 (fun _ => 0)]) 4 4 ⟨2, rfl⟩).1

/-- Claim C2: for every monotonic region, every alignment
`a ∈ {1,2,4,8,16}` and every size, every non-null address `p` returned by
`Alloc` satisfies `p % a = 0`, `p` being the current position of some buffer
`base + offset` advanced by the smallest `pad ≥ 0` such that
`(base + offset + pad) % a = 0`. -/
theorem claim_C2 (a : monotonicArena) (s al p : ℕ)
    (hal : al ∈ ([1, 2, 4, 8, 16] : List ℕ))
    (hp : (a.Alloc s al).1 = some p) :
    p % al = 0 ∧
    ∃ b ∈ a.buffers,
      p = b.effBase + b.offset + b.pad al ∧
      (b.effBase + b.offset + b.pad al) % al = 0 ∧
      ∀ k, (b.effBase + b.offset + k) % al = 0 → b.pad al ≤ k := by
  have hpos : 0 < al := by
    simp only [List.mem_cons, List.not_mem_nil, or_false] at hal
    rcases hal with h | h | h | h | h <;> omega
  obtain ⟨b0, hmem, hsucc, -⟩ :=
    monoAllocLoop_serving_mem s al p a.buffers hp
  have hval := (alloc_fst_some_iff b0 s al p).1 hsucc
  have hcor := alignPad_correct (b0.effBase + b0.offset) al hpos
  have hmod : (b0.effBase + b0.offset + b0.pad al) % al = 0 := by
    unfold monotonicBuffer.pad
    exact hcor
  refine ⟨by rw [hval.2]; exact hmod, b0, hmem, hval.2, hmod, ?_⟩
  intro k hk
  exact alignPad_min (b0.effBase + b0.offset) al k hpos hk

/-- Witness for C2: a buffer based at address 4, request `(3, 8)`; the
returned address is 8, divisible by 8. -/
theorem claim_C2_witness : (8 : ℕ) % 8 = 0 :=
  (claim_C2 (monotonicArena.mk [monotonicBuffer.mk 4 none 0 16 (fun _ => 0)])
    3 8 8 (by decide) (by decide)).1

/-- Counterexample to claim C3 as stated: from a fresh one-buffer region,
after one successful allocation, `Reset(false)` followed directly by
`Reset(true)` does NOT drop the backing pointer of the buffer — `reset` is a
no-op once the offset is back to 0, so the pointer is still `some 0`, not
`none`. -/
theorem claim_C3_counterexample :
    ((((monotonicArena.mk [monotonicBuffer.mk 0 none 0 16 (fun _ => 0)]).Alloc 8 1).2.Reset
        false).Reset true).buffers.map monotonicBuffer.ptr = [some 0] ∧
    ¬ ((((monotonicArena.mk [monotonicBuffer.mk 0 none 0 16 (fun _ => 0)]).Alloc 8 1).2.Reset
        false).Reset true).buffers.map monotonicBuffer.ptr = [none] := by
  refine ⟨rfl, ?_⟩
  intro h
  rw [show ((((monotonicArena.mk [monotonicBuffer.mk 0 none 0 16 (fun _ => 0)]).Alloc 8
      1).2.Reset false).Reset true).buffers.map monotonicBuffer.ptr = [some 0] from rfl]
    at h
  simp at h

/-- Claim C3, amended: starting from a fresh monotonic region, after one
successful allocation of a positive size, `Reset(false)` keeps the backing
pointer and memory contents of every buffer and returns every offset to 0;
a DIRECTLY following `Reset(true)` is a no-op (every offset is 0 by then)
and does not release the backing memory; `reset(true)` drops the backing
pointer of a buffer exactly when invoked while the offset of that buffer is
positive — in particular the buffer that served the allocation has a
positive offset and a materialized pointer, so a `Reset(true)` issued
instead of the `Reset(false)` would release it. -/
theorem claim_C3_amended (a : monotonicArena) (size al p : ℕ) (hsz : 0 < size)
    (hfresh : ∀ b ∈ a.buffers, b.ptr = none ∧ b.offset = 0)
    (hp : (a.Alloc size al).1 = some p) :
    ((a.Alloc size al).2.Reset false).buffers.map monotonicBuffer.ptr
      = (a.Alloc size al).2.buffers.map monotonicBuffer.ptr ∧
    ((a.Alloc size al).2.Reset false).buffers.map monotonicBuffer.mem
      = (a.Alloc size al).2.buffers.map monotonicBuffer.mem ∧
    (∀ b ∈ ((a.Alloc size al).2.Reset false).buffers, b.offset = 0) ∧
    ((a.Alloc size al).2.Reset false).Reset true = (a.Alloc size al).2.Reset false ∧
    (∃ b ∈ (a.Alloc size al).2.buffers,
      0 < b.offset ∧ b.ptr ≠ none ∧ (b.reset true).ptr = none) := by
  refine ⟨?_, ?_, ?_, ?_, ?_⟩
  · show ((a.Alloc size al).2.buffers.map (fun s => s.reset false)).map
        monotonicBuffer.ptr = _
    rw [List.map_map]
    exact List.map_congr_left (fun b _ => reset_false_ptr b)
  · show ((a.Alloc size al).2.buffers.map (fun s => s.reset false)).map
        monotonicBuffer.mem = _
    rw [List.map_map]
    exact List.map_congr_left (fun b _ => reset_mem b false)
  · intro b hb
    simp only [monotonicArena.Reset, List.mem_map] at hb
    obtain ⟨c, -, hc⟩ := hb
    rw [← hc]
    exact reset_offset c false
  · show monotonicArena.mk (((a.Alloc size al).2.buffers.map
        (fun s => s.reset false)).map (fun s => s.reset true)) = _
    have hz : ∀ b ∈ (a.Alloc size al).2.buffers.map (fun s => s.reset false),
        b.reset true = b := by
      intro b hb
      simp only [List.mem_map] at hb
      obtain ⟨c, -, hc⟩ := hb
      exact reset_of_offset_zero b true (by rw [← hc]; exact reset_offset c false)
    rw [List.map_congr_left hz]
    simp [monotonicArena.Reset]
  · obtain ⟨b0, hmem, hsucc, hres⟩ :=
      monoAllocLoop_serving_mem size al p a.buffers hp
    refine ⟨(b0.alloc size al).2, hres, ?_, ?_, ?_⟩
    · rw [alloc_snd_offset_of_some b0 size al p hsucc]
      omega
    · rw [alloc_snd_ptr]
      simp
    · exact reset_true_ptr_of_pos _
        (by rw [alloc_snd_offset_of_some b0 size al p hsucc]; omega)

/-- Witness for the amended C3 at a concrete fresh one-buffer region. -/
theorem claim_C3_witness :
    ((((monotonicArena.mk [monotonicBuffer.mk 0 none 0 16 (fun _ => 0)]).Alloc 8 1).2.Reset
        false).buffers.map monotonicBuffer.ptr)
      = (((monotonicArena.mk [monotonicBuffer.mk 0 none 0 16 (fun _ => 0)]).Alloc 8
        1).2.buffers.map monotonicBuffer.ptr) :=
  (claim_C3_amended (monotonicArena.mk [monotonicBuffer.mk 0 none 0 16 (fun _ => 0)])
    8 1 0 (by decide) (by decide) (by decide)).1

/-- Counterexample to claim C4 as stated: a failed allocation is NOT always
mutation-free.  On a fresh (never materialized) buffer of capacity 1, a
2-byte request fails, yet the alloc has lazily materialized the
backing-store handle: the pointer field changed from `none` to `some 4`. -/
theorem claim_C4_counterexample :
    ((monotonicBuffer.mk 4 none 0 1 (fun _ => 5)).alloc 2 1).1 = none ∧
    ¬ ((monotonicBuffer.mk 4 none 0 1 (fun _ => 5)).alloc 2 1).2
        = monotonicBuffer.mk 4 none 0 1 (fun _ => 5) := by
  refine ⟨rfl, ?_⟩
  intro h
  have hptr := congrArg monotonicBuffer.ptr h
  rw [show ((monotonicBuffer.mk 4 none 0 1 (fun _ => 5)).alloc 2 1).2.ptr = some 4
    from rfl] at hptr
  simp at hptr

/-- Claim C4, amended: when the `alloc` of a buffer fails because the padded
size exceeds the remaining capacity, it returns no address and leaves the
offset, capacity and would-be base unchanged; and if the
backing store was already materialized, the buffer is left completely
unchanged.  The only possible mutation of a failed allocation is the lazy
materialization of the backing-store handle on a first call.  This holds
for both the monotonic buffer and the slab. -/
theorem claim_C4_amended (b : monotonicBuffer) (sl : slab) (s al t : ℕ)
    (hbf : (b.alloc s al).1 = none) (hsf : (sl.alloc t).1 = none) :
    (b.alloc s al).2.offset = b.offset ∧
    (b.alloc s al).2.size = b.size ∧
    (b.alloc s al).2.heapBase = b.heapBase ∧
    (b.ptr ≠ none → (b.alloc s al).2 = b) ∧
    (sl.alloc t).2.offset = sl.offset ∧
    (sl.alloc t).2.size = sl.size ∧
    (sl.alloc t).2.heapBase = sl.heapBase ∧
    (sl.ptr ≠ none → (sl.alloc t).2 = sl) := by
  refine ⟨alloc_snd_offset_of_none b s al hbf, alloc_snd_size b s al,
    alloc_snd_heapBase b s al, ?_, slab_alloc_snd_offset_of_none sl t hsf,
    slab_alloc_snd_size sl t, slab_alloc_snd_heapBase sl t, ?_⟩
  · intro hb
    rw [alloc_fst_none_iff] at hbf
    rw [alloc_eq_matz]
    simp only [if_pos hbf]
    unfold monotonicBuffer.matz
    rw [if_neg hb]
  · intro hs
    rw [slab_alloc_fst_none_iff] at hsf
    rw [slab_alloc_eq_matz]
    simp only [if_pos hsf]
    unfold slab.matz
    rw [if_neg hs]

/-- Witness for the amended C4: already-materialized buffer and slab of
capacity 1, failing 2-byte requests. -/
theorem claim_C4_witness :
    ((monotonicBuffer.mk 4 (some 4) 0 1 (fun _ => 0)).alloc 2 1).2.offset
      = (monotonicBuffer.mk 4 (some 4) 0 1 (fun _ => 0)).offset :=
  (claim_C4_amended (monotonicBuffer.mk 4 (some 4) 0 1 (fun _ => 0))
    (slab.mk 4 (some 4) 0 1 (fun _ => 0)) 2 1 2 (by decide) (by decide)).1

/-- Claim C5, evaluated at the failing input (the claim is refuted by the
code): `slabArena.Alloc` takes only a size — no alignment parameter, unlike
`Arena.Alloc(size, alignment)` in arena.go, whose interface `NewSlabArena`
is declared to return — and it provides no alignment guarantee: on a
16-byte slab based at address 0, after a 1-byte allocation an 8-byte
allocation returns address 1, which is not 8-aligned.  (The probing-order
half of the claim does hold; the contract-identity half fails.) -/
theorem claim_C5_demo :
    ((((slabArena.mk [slab.mk 0 none 0 16 (fun _ => 0)]).Alloc 1).2).Alloc 8).1
      = some 1 ∧
    ¬ ((1 : ℕ) % 8 = 0) := by
  exact ⟨rfl, by decide⟩

/-- Claim C6: for any sequence of allocations served by one monotonic
buffer with no reset in between, every success advances the write offset by
exactly `pad + size`, the returned range lies between the old and the new
offset (`base + offset_old ≤ address` and `address + size = base +
offset_new`), and the returned `[address, address+size)` ranges are
pairwise disjoint. -/
theorem claim_C6 (b : monotonicBuffer) (reqs : List (ℕ × ℕ)) (s al p : ℕ)
    (hsucc : (b.alloc s al).1 = some p) :
    (b.alloc s al).2.offset = b.offset + (b.pad al + s) ∧
    b.effBase + b.offset ≤ p ∧
    p + s = b.effBase + (b.alloc s al).2.offset ∧
    (runAllocs b reqs).Pairwise disjointRange := by
  have hval := (alloc_fst_some_iff b s al p).1 hsucc
  refine ⟨alloc_snd_offset_of_some b s al p hsucc, ?_, ?_, runAllocs_pairwise reqs b⟩
  · rw [hval.2]
    omega
  · rw [hval.2, alloc_snd_offset_of_some b s al p hsucc]
    omega

/-- Witness for C6 at a concrete buffer and request list. -/
theorem claim_C6_witness :
    ((monotonicBuffer.mk 0 none 0 16 (fun _ => 0)).alloc 4 4).2.offset
      = (monotonicBuffer.mk 0 none 0 16 (fun _ => 0)).offset
        + ((monotonicBuffer.mk 0 none 0 16 (fun _ => 0)).pad 4 + 4) :=
  (claim_C6 (monotonicBuffer.mk 0 none 0 16 (fun _ => 0)) [(4, 4), (3, 8)]
    4 4 0 (by decide)).1

/-- Claim C7: the invariant `0 ≤ offset ≤ capacity` (the lower bound is
inherent in the `ℕ` model) holds at construction and is preserved by every
`alloc` (successful or failed) and by every `reset`, for both the monotonic
buffer and the slab. -/
theorem claim_C7 (n hB s al t : ℕ) (b : monotonicBuffer) (sl : slab)
    (release : Bool) (hb : b.offset ≤ b.size) (hsl : sl.offset ≤ sl.size) :
    (newMonotonicBuffer n hB).offset = 0 ∧
    (newMonotonicBuffer n hB).offset ≤ (newMonotonicBuffer n hB).size ∧
    (newSlab n hB).offset = 0 ∧
    (newSlab n hB).offset ≤ (newSlab n hB).size ∧
    (b.alloc s al).2.offset ≤ (b.alloc s al).2.size ∧
    (b.reset release).offset ≤ (b.reset release).size ∧
    (sl.alloc t).2.offset ≤ (sl.alloc t).2.size ∧
    (sl.reset release).offset ≤ (sl.reset release).size := by
  refine ⟨rfl, by simp [newMonotonicBuffer], rfl, by simp [newSlab], ?_, ?_, ?_, ?_⟩
  · rw [alloc_snd_size]
    cases hx : (b.alloc s al).1 with
    | none =>
      rw [alloc_snd_offset_of_none b s al hx]
      exact hb
    | some p =>
      have hcond := ((alloc_fst_some_iff b s al p).1 hx).1
      unfold monotonicBuffer.availableBytes at hcond
      rw [alloc_snd_offset_of_some b s al p hx]
      omega
  · rw [reset_size, reset_offset]
    omega
  · rw [slab_alloc_snd_size]
    cases hx : (sl.alloc t).1 with
    | none =>
      rw [slab_alloc_snd_offset_of_none sl t hx]
      exact hsl
    | some p =>
      have hcond : ¬ sl.availableBytes < t := by
        intro hcon
        rw [← slab_alloc_fst_none_iff] at hcon
        rw [hx] at hcon
        exact Option.noConfusion hcon
      have hoff : (sl.alloc t).2.offset = sl.offset + t := by
        rw [slab_alloc_eq_matz, if_neg hcond]
      have hcond2 : ¬ sl.size - sl.offset < t := hcond
      rw [hoff]
      omega
  · rw [slab_reset_size, slab_reset_offset]
    omega

/-- Witness for C7 at concrete buffers and requests. -/
theorem claim_C7_witness :
    (newMonotonicBuffer 8 0).offset = 0 :=
  (claim_C7 8 0 4 2 4 (monotonicBuffer.mk 0 (some 0) 3 16 (fun _ => 0))
    (slab.mk 0 (some 0) 3 16 (fun _ => 0)) false (by decide) (by decide)).1

/-- Counterexample to claim C8 as stated: the zero-on-alloc policy does NOT
hold for every buffer variant.  On an already-materialized slab whose
1-byte backing array holds the value 7, a successful 1-byte `alloc` returns
address 0 covering that byte, but the alloc does not zero it: the byte
still reads 7. -/
theorem claim_C8_counterexample :
    ((slab.mk 0 (some 0) 0 1 (fun _ => 7)).alloc 1).1 = some 0 ∧
    ((slab.mk 0 (some 0) 0 1 (fun _ => 7)).alloc 1).2.mem 0 = 7 ∧
    ¬ ((7 : ℕ) = 0) := by
  exact ⟨rfl, rfl, by decide⟩

/-- Claim C8, amended: the zero-fill policy differs per variant.  The
monotonic buffer zero-fills the `size` returned bytes on every successful
`alloc`, and its `reset` never touches memory contents.  The slab instead
leaves memory untouched on `alloc` (once materialized) and zeroes the whole
buffer on `reset(release=false)` from a used state. -/
theorem claim_C8_amended (b : monotonicBuffer) (sl : slab) (s al p t : ℕ)
    (release : Bool) (hb : (b.alloc s al).1 = some p) (hslp : sl.ptr ≠ none)
    (hof : 0 < sl.offset) :
    (∀ j, j < s → (b.alloc s al).2.mem (b.offset + b.pad al + j) = 0) ∧
    (b.reset release).mem = b.mem ∧
    (sl.alloc t).2.mem = sl.mem ∧
    (∀ j, j < sl.size → (sl.reset false).mem j = 0) := by
  refine ⟨?_, reset_mem b release, slab_alloc_snd_mem_of_materialized sl t hslp,
    slab_reset_false_mem_zero sl hof⟩
  intro j hj
  have hcond := ((alloc_fst_some_iff b s al p).1 hb).1
  rw [alloc_eq_matz]
  simp only [if_neg hcond]
  have : b.offset + b.pad al ≤ b.offset + b.pad al + j ∧
      b.offset + b.pad al + j < b.offset + b.pad al + s := by omega
  simp [this]

/-- Witness for the amended C8 at a concrete buffer, slab and requests. -/
theorem claim_C8_witness :
    (((monotonicBuffer.mk 0 none 0 16 (fun _ => 0)).alloc 4 1).2.mem
      ((monotonicBuffer.mk 0 none 0 16 (fun _ => 0)).offset
        + (monotonicBuffer.mk 0 none 0 16 (fun _ => 0)).pad 1 + 0)) = 0 :=
  (claim_C8_amended (monotonicBuffer.mk 0 none 0 16 (fun _ => 0))
    (slab.mk 0 (some 0) 2 4 (fun _ => 7)) 4 1 0 3 true (by decide)
    (by decide) (by decide)).1 0 (by decide)

/-- Counterexample to claim C9 as stated: when the old capacity is 0 and it
is insufficient, the new capacity is NOT computed by the doubling/25% rule
from the old one (that procedure, `growCap`, maps capacity 0 to 0): the
code instead uses the length of the appended data.  Appending 3 elements to an
empty slice of capacity 0 yields capacity 3, while the growth rule applied
to 0 yields 0. -/
theorem claim_C9_counterexample :
    (GoSlice.mk ([] : List ℕ) 0).cap
        < (GoSlice.mk ([] : List ℕ) 0).data.length + 3 ∧
    (SliceAppend ℕ (GoSlice.mk ([] : List ℕ) 0) [5, 6, 7]).cap = 3 ∧
    growCap ((GoSlice.mk ([] : List ℕ) 0).data.length + 3) 0 = 0 ∧
    ¬ ((3 : ℕ) = 0) := by
  refine ⟨by decide, rfl, ?_, by decide⟩
  unfold growCap
  norm_num

/-- Claim C9, amended: for every non-nil arena, `SliceAppend(a, s, data...)`
returns a slice holding exactly the elements of `s` followed by those of
`data`, with the existing elements copied forward; when the current
capacity is insufficient, the new capacity is obtained from the old one by
repeatedly doubling while below the threshold 256 and growing by 25% from
there on when the old capacity is positive, and is exactly the length of
the appended data when the old capacity is 0. -/
theorem claim_C9_amended (α : Type) [Inhabited α] (s : GoSlice α)
    (data : List α) (hinv : s.data.length ≤ s.cap) :
    (SliceAppend α s data).data = s.data ++ data ∧
    (SliceAppend α s data).data.take s.data.length = s.data ∧
    (s.cap < s.data.length + data.length →
      (SliceAppend α s data).cap =
        if 0 < s.cap then growCap (s.data.length + data.length) s.cap
        else data.length) := by
  refine ⟨SliceAppend_data α s data hinv, ?_, ?_⟩
  · rw [SliceAppend_data α s data hinv]
    exact List.take_left s.data data
  · intro hins
    rw [SliceAppend_cap α s data hinv]
    exact growSlice_cap_of_insufficient α s data.length hinv hins

/-- Witness for the amended C9 at a concrete slice and data. -/
theorem claim_C9_witness :
    (SliceAppend ℕ (GoSlice.mk [1, 2] 2) [5, 6, 7]).data = [1, 2] ++ [5, 6, 7] :=
  (claim_C9_amended ℕ (GoSlice.mk [1, 2] 2) [5, 6, 7] (by decide)).1

/-- Claim C10: a zero-size request is not treated as exhaustion.  For every
monotonic region containing a buffer whose remaining capacity covers the
alignment padding of that buffer, and every power-of-two alignment, `Alloc 0 al`
returns a non-null aligned pointer, and exactly one buffer — the serving
one — has its offset advanced, by its padding only. -/
theorem claim_C10 (a : monotonicArena) (al : ℕ) (hal : ∃ k, al = 2 ^ k)
    (hroom : ∃ b ∈ a.buffers, b.pad al ≤ b.availableBytes) :
    ∃ p, (a.Alloc 0 al).1 = some p ∧ p % al = 0 ∧
      ∃ i : ℕ, ∃ hi : i < a.buffers.length,
        ((a.buffers.get ⟨i, hi⟩).alloc 0 al).1 = some p ∧
        (a.Alloc 0 al).2.buffers.map monotonicBuffer.offset
          = (a.buffers.map monotonicBuffer.offset).set i
              ((a.buffers.get ⟨i, hi⟩).offset + (a.buffers.get ⟨i, hi⟩).pad al) := by
  have hpos : 0 < al := by
    obtain ⟨k, hk⟩ := hal
    subst hk
    positivity
  have hnotnone : ¬ (a.Alloc 0 al).1 = none := by
    intro h
    obtain ⟨b, hmem, hble⟩ := hroom
    have hall := (monoAllocLoop_none_iff 0 al a.buffers).1 h b hmem
    rw [alloc_fst_none_iff] at hall
    omega
  cases hq : (a.Alloc 0 al).1 with
  | none => exact absurd hq hnotnone
  | some p =>
    refine ⟨p, rfl, ?_, ?_⟩
    · obtain ⟨b0, hmem, hsucc, -⟩ := monoAllocLoop_serving_mem 0 al p a.buffers hq
      have hval := (alloc_fst_some_iff b0 0 al p).1 hsucc
      rw [hval.2]
      exact alignPad_correct (b0.effBase + b0.offset) al hpos
    · obtain ⟨i, hi, hsucc, hmap⟩ := monoAllocLoop_offsets 0 al p a.buffers hq
      refine ⟨i, hi, hsucc, ?_⟩
      show (monoAllocLoop 0 al a.buffers).2.map monotonicBuffer.offset = _
      rw [hmap, alloc_snd_offset_of_some _ 0 al p hsucc]
      congr 1

/-- Witness for C10: one buffer based at address 4, alignment 8: the
request `Alloc(0, 8)` succeeds with an 8-aligned pointer. -/
theorem claim_C10_witness :
    ((monotonicArena.mk [monotonicBuffer.mk 4 none 0 16 (fun _ => 0)]).Alloc 0 8).1
        = some 8 ∧ (8 : ℕ) % 8 = 0 := by
  obtain ⟨p, h1, h2, -⟩ := claim_C10
    (monotonicArena.mk [monotonicBuffer.mk 4 none 0 16 (fun _ => 0)]) 8
    ⟨3, rfl⟩ (by decide)
  have hval : ((monotonicArena.mk
      [monotonicBuffer.mk 4 none 0 16 (fun _ => 0)]).Alloc 0 8).1 = some 8 := by
    decide
  rw [hval] at h1
  rw [Option.some.injEq] at h1
  subst h1
  exact ⟨hval, h2⟩
